import Mathlib

/-!
Verification of the `pyiturr5etc` allocation-database core against its
specification.

The repository ships the README, ingestion/plotting notebooks (call sites of
the `njl_corf` library: `pyfcctab.read`, `pyoscar.read`, `BandCollection.merge`,
`find_closest_matching_band`, `merge_sensors`) and one development notebook,
`sandbox/oscar-development/explore-oscar-pandas.ipynb`, that contains the
actual OSCAR ingestion logic (frequency parsing, bandwidth reconciliation,
`OscarEntry.__post_init__` degeneracy widening).

Where the deciding code is present (the OSCAR notebook), the definitions below
are translated from it directly.  Where only call sites exist (the
interval-indexed collection, directional search, merge, relabeling, version
guard), the definitions are modelled from the specification and are marked as
such in their doc comments.

Frequencies are embedded as rational numbers (the Python code carries
pint-quantity floats; all magnitudes relevant to the claims are exact dyadic
or decimal values, embedded exactly in `ℚ`).
-/

namespace PyIturr

/-- Half-open frequency interval `[start, stop)`.  Magnitudes are in a single
normalized unit (GHz in the notebooks). -/
structure Interval where
  start : ℚ
  stop : ℚ
  deriving DecidableEq, Repr

/-- Half-open intersection test, from the spec of the interval primitive:
`start < other.stop and other.start < stop` (the test the `intervaltree`
package applies to its half-open intervals). -/
def Interval.overlaps (a b : Interval) : Bool :=
  decide (a.start < b.stop) && decide (b.start < a.stop)

/-- A band record: an interval plus a category label.  Modelled from the spec:
the further metadata fields (services, tiers, footnotes, satellite data) do not
take part in any claim except through opaque predicates, so a single label
field stands for the category/sensor label that the collation engine rewrites. -/
structure BandRecord where
  bounds : Interval
  label : String
  deriving DecidableEq, Repr

/-- A record is well-formed when its interval is non-degenerate. -/
def BandRecord.wf (r : BandRecord) : Prop := r.bounds.start < r.bounds.stop

/-- Modelled from the spec: a Collection is an immutable multiset of records
indexed by interval.  The balanced interval index of the implementation
(`intervaltree.IntervalTree`) only affects query complexity, not query
content, so the model keeps the records as the list they were built from. -/
structure Collection where
  records : List BandRecord
  deriving DecidableEq, Repr

/-- Modelled from the spec: `build` constructs the collection from a sequence
of records. -/
def build (rs : List BandRecord) : Collection := ⟨rs⟩

/-- Modelled from the spec: `query_range` returns every record whose interval
overlaps the query interval. -/
def queryRange (c : Collection) (q : Interval) : List BandRecord :=
  c.records.filter (fun r => r.bounds.overlaps q)

/-- Modelled from the spec: `merge` returns a new Collection containing the
multiset union of both operands' records, without deduplication. -/
def merge (a b : Collection) : Collection := ⟨a.records ++ b.records⟩

/-- Fold step selecting the best record seen so far under a strict
preference `better`. -/
def pickStep (better : BandRecord → BandRecord → Bool) :
    Option BandRecord → BandRecord → Option BandRecord
  | none, r => some r
  | some best, r => if better r best then some r else some best

/-- Select the preferred record of a list (`none` when the list is empty). -/
def pickBest (better : BandRecord → BandRecord → Bool) (rs : List BandRecord) :
    Option BandRecord :=
  rs.foldl (pickStep better) none

/-- Modelled from the spec: `find_closest(from, direction, predicate)`
(`find_closest_matching_band` at the call sites) scans outward from `from` in
the given direction and returns the first matching record encountered there:
for direction `+1` the candidates are the matching records lying at or above
`from` (interval start at least `from`) and ties go to the smallest interval
start; for direction `-1` the candidates lie at or below `from` (interval stop
at most `from`) and ties go to the largest interval stop.  `none` plays the
role of the `NotFound` sentinel. -/
def findClosest (c : Collection) (f : ℚ) (direction : ℤ)
    (p : BandRecord → Bool) : Option BandRecord :=
  if direction = 1 then
    pickBest (fun r s => decide (r.bounds.start < s.bounds.start))
      (c.records.filter (fun r => p r && decide (f ≤ r.bounds.start)))
  else if direction = -1 then
    pickBest (fun r s => decide (s.bounds.stop < r.bounds.stop))
      (c.records.filter (fun r => p r && decide (r.bounds.stop ≤ f)))
  else
    none

/-- Glob matching over character lists: `*` matches any (possibly empty)
substring, every other character matches itself, the whole pattern must match
the whole string.  Modelled from the spec of the collation engine: glob-style
patterns, `*` as the only wildcard, case-sensitive, matching the entire
label. -/
def globMatch : List Char → List Char → Bool
  | [], s => s.isEmpty
  | c :: ps, s =>
      if c = '*' then s.tails.any (fun t => globMatch ps t)
      else
        match s with
        | [] => false
        | x :: xs => decide (x = c) && globMatch ps xs

/-- A label matches a string pattern when the glob match succeeds. -/
def labelMatch (pat : String) (l : String) : Bool :=
  globMatch pat.toList l.toList

/-- An alias map: canonical labels, each with its wildcard patterns, in
declaration order. -/
abbrev AliasMap := List (String × List String)

/-- Modelled from the spec: rewrite one raw label.  The first canonical key
(in declaration order) one of whose patterns matches the label wins; a label
matching no pattern passes through unchanged. -/
def relabelLabel (m : AliasMap) (l : String) : String :=
  match m.find? (fun kv => kv.2.any (fun pat => labelMatch pat l)) with
  | some kv => kv.1
  | none => l

/-- Relabel a single record: identical except for the rewritten label. -/
def relabelRecord (m : AliasMap) (r : BandRecord) : BandRecord :=
  { r with label := relabelLabel m r.label }

/-- Modelled from the spec: `relabel(collection, alias_map)`
(`merge_sensors` at the call sites) derives a new collection whose records are
the relabeled originals. -/
def relabel (m : AliasMap) (c : Collection) : Collection :=
  ⟨c.records.map (relabelRecord m)⟩

/-- Version-mismatch error carrying both fingerprints, from the spec of the
version guard. -/
structure VersionMismatch where
  expected : ℕ
  observed : ℕ
  deriving DecidableEq, Repr

/-- Modelled from the spec: the cryptographic content fingerprint of the
source document's bytes (a sha1 hash of the PDF file in the README).  The
model replaces the hash by an injective content code — a base-256 fold with a
leading sentinel digit — matching the spec's treatment of the fingerprint as
identifying the document content (collision-free). -/
def fingerprint (bytes : List ℕ) : ℕ :=
  bytes.foldl (fun a b => a * 256 + b) 1

/-- Modelled from the spec: ingestion under a declared identity whose
registered expected fingerprint is `expected`.  On fingerprint match the
result is the verified collection built from the parsed rows, carrying the
fingerprint; on mismatch it is a `VersionMismatch` error carrying both
fingerprints, and no collection is produced. -/
def ingest (expected : ℕ) (bytes : List ℕ) (rows : List BandRecord) :
    Except VersionMismatch (ℕ × Collection) :=
  if fingerprint bytes = expected then
    .ok (fingerprint bytes, build rows)
  else
    .error ⟨expected, fingerprint bytes⟩

/-! ## OSCAR ingestion pipeline

Translated from `sandbox/oscar-development/explore-oscar-pandas.ipynb`.
Frequency magnitudes are in GHz, bandwidths declared in MHz.  The notebook
manipulates binary64 floats; the embedding works in `ℚ`, with the binary64
unit-in-the-last-place function modelled exactly (for magnitudes that are
themselves representable, which all concrete inputs below are). -/

/-- The binary64 unit in the last place, as used by Python's `math.ulp`:
`ulp 0` is the smallest subnormal `2 ^ (-1074)`; otherwise the exponent is the
floor base-2 logarithm of the magnitude, clamped below at the smallest normal
exponent `-1022`, and the ulp is `2 ^ (exponent - 52)`. -/
def ulp (q : ℚ) : ℚ :=
  if q = 0 then (2 : ℚ) ^ (-1074 : ℤ)
  else (2 : ℚ) ^ (max (Int.log 2 |q|) (-1022) - 52)

/-- The widening delta of `OscarEntry.__post_init__`:
`math.sqrt(math.ulp(self.bounds.stop.magnitude))`, in the stop's units.
`Rat.sqrt` agrees with binary64 `math.sqrt` whenever the ulp is an even power
of two, which holds at every concrete magnitude used below. -/
def wideningDelta (stop : ℚ) : ℚ := Rat.sqrt (ulp stop)

/-- `OscarEntry.__post_init__`: a degenerate interval (`stop == start`) has
its stop pushed up by `sqrt(ulp(stop))`; other intervals pass through. -/
def oscarPostInit (start stop : ℚ) : ℚ × ℚ :=
  if stop = start then (start, stop + wideningDelta stop) else (start, stop)

/-- The notebook's bandwidth column: the sentinels `"N/R"`, `"-"` and `"nan"`
are replaced by `"0 MHz"`, then the MHz value is divided by `1e3` to give GHz.
A missing/sentinel declared bandwidth is embedded as `none`. -/
def bandwidthValue (bwMHz : Option ℚ) : ℚ := bwMHz.getD 0 / 1000

/-- `range_based_bandwidth = np.abs(upper_limit - lower_limit)`: `NaN` (no
upper limit given in the frequency field) is embedded as `none`. -/
def rangeBasedBandwidth (lower : ℚ) (upper : Option ℚ) : Option ℚ :=
  upper.map (fun u => |u - lower|)

/-- `questionable_row_flags = (bandwidth_value != 0) & (range_based_bandwidth
> 1e-4)`.  A `NaN` range-based bandwidth compares false against `1e-4`, hence
the `none` branch. -/
def questionableFlag (lower : ℚ) (upper : Option ℚ) (bwMHz : Option ℚ) : Bool :=
  decide (bandwidthValue bwMHz ≠ 0) &&
    match rangeBasedBandwidth lower upper with
    | some r => decide (r > 1 / 10000)
    | none => false

/-- The notebook's row pipeline, from parsed frequency field to the stored
interval of the `OscarEntry`: null-fill the stop from the start
(`data.loc[isnull, "Frequency stop"] = data["Frequency start"]`), widen
non-questionable rows by half the declared bandwidth on each side, then apply
`OscarEntry.__post_init__`. -/
def ingestOscarRow (lower : ℚ) (upper : Option ℚ) (bwMHz : Option ℚ) : ℚ × ℚ :=
  let start0 := lower
  let stop0 := upper.getD lower
  let q := questionableFlag lower upper bwMHz
  let bw := bandwidthValue bwMHz
  let start1 := if q then start0 else start0 - bw / 2
  let stop1 := if q then stop0 else stop0 + bw / 2
  oscarPostInit start1 stop1

/-! ## Helper lemmas -/

/-- The rational square root of a positive rational is positive. -/
theorem ratSqrt_pos {q : ℚ} (hq : 0 < q) : 0 < Rat.sqrt q := by
  rw [Rat.sqrt, Rat.mkRat_eq_div]
  apply div_pos
  · have hnum : 0 < q.num := Rat.num_pos.mpr hq
    have : 0 < Int.sqrt q.num := by
      rw [Int.sqrt]
      exact_mod_cast Nat.sqrt_pos.mpr (by omega)
    exact_mod_cast this
  · exact_mod_cast Nat.sqrt_pos.mpr q.den_pos

/-- The modelled ulp is positive everywhere. -/
theorem ulp_pos (q : ℚ) : 0 < ulp q := by
  unfold ulp
  split <;> positivity

/-- The degeneracy-widening delta is positive everywhere. -/
theorem wideningDelta_pos (stop : ℚ) : 0 < wideningDelta stop :=
  ratSqrt_pos (ulp_pos stop)

/-! ## Claim theorems -/

/-- C1: for a collection built from well-formed records, a record of the
collection appears in `query_range(Q)` iff its interval overlaps `Q` under
the half-open test, and membership in the query result does not depend on the
order in which the records were inserted at build time. -/
theorem C1_query_range_overlap_iff (l lp : List BandRecord)
    (hperm : l.Perm lp) (_hwf : ∀ r ∈ l, r.wf) (R : BandRecord)
    (hR : R ∈ l) (q : Interval) :
    (R ∈ queryRange (build l) q ↔ R.bounds.overlaps q = true) ∧
    (R ∈ queryRange (build l) q ↔ R ∈ queryRange (build lp) q) := by
  constructor
  · simp [queryRange, build, List.mem_filter, hR]
  · simp only [queryRange, build, List.mem_filter]
    exact ⟨fun h => ⟨hperm.mem_iff.mp h.1, h.2⟩, fun h => ⟨hperm.mem_iff.mpr h.1, h.2⟩⟩

/-- Witness for C1 at a concrete collection of two overlapping bands and the
reversed insertion order. -/
theorem C1_witness :
    ((⟨⟨1, 2⟩, "Fixed"⟩ : BandRecord) ∈
        queryRange (build [⟨⟨1, 2⟩, "Fixed"⟩, ⟨⟨3, 4⟩, "Mobile"⟩]) ⟨0, 3⟩ ↔
      Interval.overlaps ⟨1, 2⟩ ⟨0, 3⟩ = true) ∧
    ((⟨⟨1, 2⟩, "Fixed"⟩ : BandRecord) ∈
        queryRange (build [⟨⟨1, 2⟩, "Fixed"⟩, ⟨⟨3, 4⟩, "Mobile"⟩]) ⟨0, 3⟩ ↔
      (⟨⟨1, 2⟩, "Fixed"⟩ : BandRecord) ∈
        queryRange (build [⟨⟨3, 4⟩, "Mobile"⟩, ⟨⟨1, 2⟩, "Fixed"⟩]) ⟨0, 3⟩) :=
  C1_query_range_overlap_iff
    [⟨⟨1, 2⟩, "Fixed"⟩, ⟨⟨3, 4⟩, "Mobile"⟩]
    [⟨⟨3, 4⟩, "Mobile"⟩, ⟨⟨1, 2⟩, "Fixed"⟩]
    (List.Perm.swap _ _ _)
    (by intro r hr; simp only [List.mem_cons, List.not_mem_nil, or_false] at hr
        rcases hr with rfl | rfl <;> norm_num [BandRecord.wf])
    ⟨⟨1, 2⟩, "Fixed"⟩ (by simp) ⟨0, 3⟩

/-- C4: merge is exactly the multiset union of its operands: lengths add,
per-record multiplicities add, and the records contributed by the two sides
remain individually queryable (the query result over the merge is the
concatenation of the query results over the operands). -/
theorem C4_merge_multiset_union (a b : Collection) :
    (merge a b).records.length = a.records.length + b.records.length ∧
    (∀ R : BandRecord,
      (merge a b).records.count R = a.records.count R + b.records.count R) ∧
    ∀ q : Interval, queryRange (merge a b) q = queryRange a q ++ queryRange b q := by
  refine ⟨List.length_append _ _, fun R => ?_, fun q => ?_⟩
  · simp [merge, List.count_append]
  · simp [merge, queryRange, List.filter_append]

/-- C5: merge is associative and commutative up to record-multiset equality:
the three bracketings/orderings produce the same multiset of records. -/
theorem C5_merge_assoc_comm (a b c : Collection) :
    ((merge (merge a b) c).records : Multiset BandRecord) =
      ((merge a (merge b c)).records : Multiset BandRecord) ∧
    ((merge (merge a b) c).records : Multiset BandRecord) =
      ((merge (merge b a) c).records : Multiset BandRecord) := by
  constructor <;> simp only [merge] <;>
    simp [← Multiset.coe_add, add_assoc, add_comm, add_left_comm]

/-- A record selected by the preference fold was among the candidates (or was
the initial accumulator). -/
theorem pickStep_foldl_mem (better : BandRecord → BandRecord → Bool)
    (rs : List BandRecord) (acc : Option BandRecord) (r : BandRecord)
    (h : rs.foldl (pickStep better) acc = some r) : r ∈ rs ∨ acc = some r := by
  induction rs generalizing acc with
  | nil => exact Or.inr h
  | cons x xs ih =>
      rw [List.foldl_cons] at h
      rcases ih _ h with hmem | hacc
      · exact Or.inl (List.mem_cons_of_mem _ hmem)
      · cases acc with
        | none =>
            simp only [pickStep, Option.some.injEq] at hacc
            exact Or.inl (hacc ▸ List.mem_cons_self _ _)
        | some best =>
            simp only [pickStep] at hacc
            by_cases hb : better x best = true
            · rw [if_pos hb] at hacc
              exact Or.inl (by rw [← Option.some.inj hacc]; exact List.mem_cons_self _ _)
            · rw [if_neg hb] at hacc
              exact Or.inr hacc

/-- A record returned by `pickBest` belongs to the candidate list. -/
theorem pickBest_mem (better : BandRecord → BandRecord → Bool)
    (rs : List BandRecord) (r : BandRecord)
    (h : pickBest better rs = some r) : r ∈ rs := by
  rcases pickStep_foldl_mem better rs none r h with hmem | hacc
  · exact hmem
  · cases hacc

/-- C3: directional search monotonicity: a record returned by
`find_closest(f, +1, P)` has interval start at least `f`, and a record
returned by `find_closest(f, -1, P)` has interval stop at most `f`. -/
theorem C3_find_closest_directional (c : Collection) (f : ℚ)
    (p : BandRecord → Bool) (r : BandRecord) :
    (findClosest c f 1 p = some r → f ≤ r.bounds.start) ∧
    (findClosest c f (-1) p = some r → r.bounds.stop ≤ f) := by
  constructor
  · intro h
    simp only [findClosest, if_pos rfl] at h
    have hmem := pickBest_mem _ _ _ h
    have := (List.mem_filter.mp hmem).2
    simp only [Bool.and_eq_true, decide_eq_true_eq] at this
    exact this.2
  · intro h
    have hne : (-1 : ℤ) ≠ 1 := by decide
    simp only [findClosest, if_neg hne, if_pos rfl] at h
    have hmem := pickBest_mem _ _ _ h
    have := (List.mem_filter.mp hmem).2
    simp only [Bool.and_eq_true, decide_eq_true_eq] at this
    exact this.2

/-- Witness for C3: a collection with one band above 1 and one below 1;
searching upward from 1 returns the upper band, downward the lower one. -/
theorem C3_witness :
    (findClosest (build [⟨⟨2, 3⟩, "X"⟩, ⟨⟨0, 1⟩, "Y"⟩]) 1 1 (fun _ => true) =
        some ⟨⟨2, 3⟩, "X"⟩ ∧
      (1 : ℚ) ≤ (⟨⟨2, 3⟩, "X"⟩ : BandRecord).bounds.start) ∧
    (findClosest (build [⟨⟨2, 3⟩, "X"⟩, ⟨⟨0, 1⟩, "Y"⟩]) 1 (-1) (fun _ => true) =
        some ⟨⟨0, 1⟩, "Y"⟩ ∧
      (⟨⟨0, 1⟩, "Y"⟩ : BandRecord).bounds.stop ≤ (1 : ℚ)) :=
  ⟨⟨by decide,
    (C3_find_closest_directional (build [⟨⟨2, 3⟩, "X"⟩, ⟨⟨0, 1⟩, "Y"⟩]) 1
      (fun _ => true) ⟨⟨2, 3⟩, "X"⟩).1 (by decide)⟩,
   ⟨by decide,
    (C3_find_closest_directional (build [⟨⟨2, 3⟩, "X"⟩, ⟨⟨0, 1⟩, "Y"⟩]) 1
      (fun _ => true) ⟨⟨0, 1⟩, "Y"⟩).2 (by decide)⟩⟩

/-- C7: when no record lying in the given direction from `f` satisfies the
predicate, `find_closest` returns the `NotFound` sentinel (`none`), not an
exception. -/
theorem C7_find_closest_not_found (c : Collection) (f : ℚ)
    (p : BandRecord → Bool) :
    ((∀ r ∈ c.records, p r = true → r.bounds.start < f) →
      findClosest c f 1 p = none) ∧
    ((∀ r ∈ c.records, p r = true → f < r.bounds.stop) →
      findClosest c f (-1) p = none) := by
  constructor
  · intro hnone
    simp only [findClosest, if_pos rfl]
    have hfil : c.records.filter
        (fun r => p r && decide (f ≤ r.bounds.start)) = [] := by
      rw [List.filter_eq_nil_iff]
      intro r hr
      simp only [Bool.and_eq_true, decide_eq_true_eq, not_and]
      intro hp
      exact not_le.mpr (hnone r hr hp)
    rw [hfil]
    rfl
  · intro hnone
    have hne : (-1 : ℤ) ≠ 1 := by decide
    simp only [findClosest, if_neg hne, if_pos rfl]
    have hfil : c.records.filter
        (fun r => p r && decide (r.bounds.stop ≤ f)) = [] := by
      rw [List.filter_eq_nil_iff]
      intro r hr
      simp only [Bool.and_eq_true, decide_eq_true_eq, not_and]
      intro hp
      exact not_le.mpr (hnone r hr hp)
    rw [hfil]
    rfl

/-- Witness for C7: the only matching band lies below 1, so the upward search
from 1 reports `NotFound`; the only band stops above 0, so the downward search
from 0 reports `NotFound`. -/
theorem C7_witness :
    findClosest (build [⟨⟨0, 1⟩, "Y"⟩]) 1 1 (fun r => decide (r.label = "Y")) =
      none ∧
    findClosest (build [⟨⟨0, 1⟩, "Y"⟩]) 0 (-1) (fun r => decide (r.label = "Y")) =
      none :=
  ⟨(C7_find_closest_not_found (build [⟨⟨0, 1⟩, "Y"⟩]) 1
      (fun r => decide (r.label = "Y"))).1 (by decide),
   (C7_find_closest_not_found (build [⟨⟨0, 1⟩, "Y"⟩]) 0
      (fun r => decide (r.label = "Y"))).2 (by decide)⟩

/-- The fingerprint fold is strictly monotone in its accumulator. -/
theorem fingerprint_foldl_lt (l : List ℕ) :
    ∀ a b : ℕ, a < b →
      l.foldl (fun x c => x * 256 + c) a < l.foldl (fun x c => x * 256 + c) b := by
  induction l with
  | nil => intro a b h; exact h
  | cons x xs ih =>
      intro a b h
      rw [List.foldl_cons, List.foldl_cons]
      exact ih _ _ (by omega)

/-- The fingerprint fold is injective in its accumulator. -/
theorem fingerprint_foldl_ne (l : List ℕ) {a b : ℕ} (h : a ≠ b) :
    l.foldl (fun x c => x * 256 + c) a ≠ l.foldl (fun x c => x * 256 + c) b := by
  rcases Nat.lt_or_ge a b with hlt | hge
  · exact Nat.ne_of_lt (fingerprint_foldl_lt l a b hlt)
  · have hlt : b < a := Nat.lt_of_le_of_ne hge (Ne.symm h)
    exact (Nat.ne_of_lt (fingerprint_foldl_lt l b a hlt)).symm

/-- Mutating one byte changes the fingerprint fold, from any accumulator. -/
theorem fingerprint_foldl_set_ne (l : List ℕ) :
    ∀ (i : ℕ) (b a : ℕ) (hi : i < l.length), b ≠ l.get ⟨i, hi⟩ →
      (l.set i b).foldl (fun x c => x * 256 + c) a ≠
        l.foldl (fun x c => x * 256 + c) a := by
  induction l with
  | nil => intro i b a hi; exact absurd hi (by simp)
  | cons x xs ih =>
      intro i b a hi hb
      cases i with
      | zero =>
          simp only [List.set_cons_zero, List.foldl_cons]
          have : b ≠ x := by simpa using hb
          exact fingerprint_foldl_ne xs (by omega)
      | succ j =>
          simp only [List.set_cons_succ, List.foldl_cons]
          exact ih j b _ (by simpa using hi) (by simpa using hb)

/-- C6: under a registered fingerprint for the original bytes, ingesting the
bytes with one byte mutated fails with a `VersionMismatch` carrying the
expected and observed fingerprints (producing no collection), while ingesting
the unmutated bytes succeeds, carrying the fingerprint. -/
theorem C6_one_byte_mutation_gate (orig : List ℕ) (rows : List BandRecord)
    (i b : ℕ) (hi : i < orig.length) (hb : b ≠ orig.get ⟨i, hi⟩) :
    ingest (fingerprint orig) (orig.set i b) rows =
      .error ⟨fingerprint orig, fingerprint (orig.set i b)⟩ ∧
    ingest (fingerprint orig) orig rows = .ok (fingerprint orig, build rows) := by
  have hne : fingerprint (orig.set i b) ≠ fingerprint orig :=
    fingerprint_foldl_set_ne orig i b 1 hi hb
  exact ⟨by simp [ingest, hne], by simp [ingest]⟩

/-- Witness for C6: bytes `[3, 1, 4]` with the middle byte rewritten to `5`. -/
theorem C6_witness :
    ingest (fingerprint [3, 1, 4]) ([3, 1, 4].set 1 5) [] =
      .error ⟨fingerprint [3, 1, 4], fingerprint ([3, 1, 4].set 1 5)⟩ ∧
    ingest (fingerprint [3, 1, 4]) [3, 1, 4] [] =
      .ok (fingerprint [3, 1, 4], build []) :=
  C6_one_byte_mutation_gate [3, 1, 4] [] 1 5 (by decide) (by decide)

/-- C8 counterexample: under first-match-wins, a record whose label `"B"` is a
canonical key of the map `[("A", ["B"]), ("B", ["C"])]` is nevertheless
relabeled to `"A"` (the earlier entry's pattern matches it), and relabeling is
not idempotent on this map: `"C" ↦ "B" ↦ "A"`. -/
theorem C8_counterexample :
    relabel [("A", ["B"]), ("B", ["C"])] ⟨[⟨⟨0, 1⟩, "B"⟩]⟩ =
      ⟨[⟨⟨0, 1⟩, "A"⟩]⟩ ∧
    (⟨[⟨⟨0, 1⟩, "A"⟩]⟩ : Collection) ≠ ⟨[⟨⟨0, 1⟩, "B"⟩]⟩ ∧
    relabel [("A", ["B"]), ("B", ["C"])]
        (relabel [("A", ["B"]), ("B", ["C"])] ⟨[⟨⟨0, 1⟩, "C"⟩]⟩) ≠
      relabel [("A", ["B"]), ("B", ["C"])] ⟨[⟨⟨0, 1⟩, "C"⟩]⟩ := by
  refine ⟨by decide, by decide, by decide⟩

/-- C8 amended: for alias maps each of whose canonical keys is itself
relabeled to itself (no canonical key is captured by an earlier entry's
pattern — true of the alias maps used in the repository), relabeling is
idempotent: `relabel(relabel(c, m), m) = relabel(c, m)`. -/
theorem C8_relabel_idempotent (m : AliasMap)
    (hfix : ∀ kv ∈ m, relabelLabel m kv.1 = kv.1) (c : Collection) :
    relabel m (relabel m c) = relabel m c := by
  have key : ∀ l : String, relabelLabel m (relabelLabel m l) = relabelLabel m l := by
    intro l
    cases hfind : m.find? (fun kv => kv.2.any (fun pat => labelMatch pat l)) with
    | none =>
        have hl : relabelLabel m l = l := by simp [relabelLabel, hfind]
        rw [hl]
        exact hl
    | some kv =>
        have hl : relabelLabel m l = kv.1 := by simp [relabelLabel, hfind]
        rw [hl]
        exact hfix kv (List.mem_of_find?_eq_some hfind)
  simp only [relabel, List.map_map]
  congr 1
  apply List.map_congr_left
  intro r _
  simp [Function.comp, relabelRecord, key]

/-- Witness for C8 at the repository's `AMSR` alias entry: `"AMSR-E"` is
relabeled to `"AMSR"` and a second pass changes nothing. -/
theorem C8_witness :
    relabel [("AMSR", ["AMSR*"])]
        (relabel [("AMSR", ["AMSR*"])]
          ⟨[⟨⟨1, 2⟩, "AMSR-E"⟩, ⟨⟨3, 4⟩, "ATMS-3"⟩]⟩) =
      relabel [("AMSR", ["AMSR*"])]
        ⟨[⟨⟨1, 2⟩, "AMSR-E"⟩, ⟨⟨3, 4⟩, "ATMS-3"⟩]⟩ :=
  C8_relabel_idempotent [("AMSR", ["AMSR*"])] (by decide)
    ⟨[⟨⟨1, 2⟩, "AMSR-E"⟩, ⟨⟨3, 4⟩, "ATMS-3"⟩]⟩

/-- The binary64 ulp at magnitude `1` is `2 ^ (-52)`. -/
theorem ulp_one : ulp 1 = (2 : ℚ) ^ (-52 : ℤ) := by
  unfold ulp
  rw [if_neg (by norm_num)]
  norm_num [Int.log_one_right]

/-- `sqrt(ulp(1))` is `2 ^ (-26)`, exactly (an even power of two, so the
binary64 square root is exact as well). -/
theorem sqrt_ulp_one : Rat.sqrt (ulp 1) = (2 : ℚ) ^ (-26 : ℤ) := by
  rw [ulp_one]
  have h : (2 : ℚ) ^ (-52 : ℤ) = ((2 : ℚ) ^ (-26 : ℤ)) * ((2 : ℚ) ^ (-26 : ℤ)) := by
    rw [← zpow_add₀ (by norm_num : (2 : ℚ) ≠ 0)]
    norm_num
  rw [h, Rat.sqrt_eq, abs_of_pos (by positivity)]

/-- C2 counterexample: at a degenerate interval with `start = stop = 1` the
constructor widens the stop by `sqrt(ulp(1)) = 2 ^ (-26)`, which is not the
smallest representable positive delta relative to the stop's magnitude
(`ulp(1) = 2 ^ (-52)`): the widened stop differs from `1 + ulp(1)`. -/
theorem C2_counterexample :
    (oscarPostInit 1 1).2 = 1 + Rat.sqrt (ulp 1) ∧
    Rat.sqrt (ulp 1) ≠ ulp 1 ∧
    (oscarPostInit 1 1).2 ≠ 1 + ulp 1 := by
  refine ⟨by simp [oscarPostInit, wideningDelta], ?_, ?_⟩
  · rw [sqrt_ulp_one, ulp_one]
    norm_num
  · have h2 : (oscarPostInit 1 1).2 = 1 + (2 : ℚ) ^ (-26 : ℤ) := by
      simp [oscarPostInit, wideningDelta, sqrt_ulp_one]
    rw [h2, ulp_one]
    intro hcontra
    have := add_left_cancel hcontra
    norm_num at this

/-- C2 amended: a record constructed with a degenerate interval
(`start = stop`) is widened at construction by adding
`sqrt(ulp(stop's magnitude))` to the stop (a deterministic positive delta
derived from the stop's magnitude, larger than one ulp), and the stored
interval then satisfies `start < stop` strictly. -/
theorem C2_degenerate_widening (start stop : ℚ) (h : stop = start) :
    oscarPostInit start stop = (start, stop + Rat.sqrt (ulp stop)) ∧
    (oscarPostInit start stop).1 < (oscarPostInit start stop).2 := by
  have he : oscarPostInit start stop = (start, stop + wideningDelta stop) := by
    simp [oscarPostInit, h]
  constructor
  · exact he
  · rw [he]
    subst h
    simpa using lt_add_of_pos_right stop (wideningDelta_pos stop)

/-- Witness for C2 (amended) at the degenerate interval `[1, 1]`. -/
theorem C2_witness :
    oscarPostInit 1 1 = (1, 1 + Rat.sqrt (ulp 1)) ∧
    (oscarPostInit 1 1).1 < (oscarPostInit 1 1).2 :=
  C2_degenerate_widening 1 1 rfl

/-- C9 counterexample: a row whose declared bandwidth (200 MHz) agrees exactly
with its declared frequency range (10–10.2 GHz, i.e. 0.2 GHz wide) carries no
conflict, yet the code flags it: the flag fires on every row with nonzero
bandwidth and non-trivial range, agreeing or not. -/
theorem C9_counterexample :
    questionableFlag 10 (some (51 / 5)) (some 200) = true ∧
    bandwidthValue (some 200) = 1 / 5 ∧
    rangeBasedBandwidth 10 (some (51 / 5)) = some (1 / 5) := by
  have habs : |(1 / 5 : ℚ)| = 1 / 5 := abs_of_pos (by norm_num)
  refine ⟨?_, ?_, ?_⟩ <;>
    norm_num [questionableFlag, bandwidthValue, rangeBasedBandwidth, habs]

/-- C9 amended: ingestion flags exactly the rows whose declared bandwidth is
nonzero and whose declared frequency range spans more than `1e-4` GHz —
whether or not the two quantities agree — and a flagged row's interval is
stored exactly as declared (no bandwidth-based adjustment, no widening). -/
theorem C9_flag_semantics (lower : ℚ) (upper bwMHz : Option ℚ) :
    (questionableFlag lower upper bwMHz = true ↔
      bandwidthValue bwMHz ≠ 0 ∧ ∃ u, upper = some u ∧ 1 / 10000 < |u - lower|) ∧
    (∀ u, upper = some u → questionableFlag lower upper bwMHz = true →
      ingestOscarRow lower upper bwMHz = (lower, u)) := by
  constructor
  · cases upper with
    | none => simp [questionableFlag, rangeBasedBandwidth]
    | some u =>
        simp only [questionableFlag, rangeBasedBandwidth]
        simp only [Option.map_some', Bool.and_eq_true, decide_eq_true_eq,
          Option.some.injEq]
        constructor
        · rintro ⟨hbw, hr⟩
          exact ⟨hbw, u, rfl, hr⟩
        · rintro ⟨hbw, v, hv, hr⟩
          exact ⟨hbw, by rw [← hv] at hr; exact hr⟩
  · intro u hu hflag
    subst hu
    simp only [questionableFlag, rangeBasedBandwidth] at hflag
    simp only [Option.map_some', Bool.and_eq_true, decide_eq_true_eq] at hflag
    obtain ⟨hbw, hr⟩ := hflag
    have hne : u ≠ lower := by
      intro he
      rw [he] at hr
      norm_num at hr
    have hflagT : questionableFlag lower (some u) bwMHz = true := by
      simp only [questionableFlag, rangeBasedBandwidth]
      simp only [Option.map_some', Bool.and_eq_true, decide_eq_true_eq]
      exact ⟨hbw, hr⟩
    simp only [ingestOscarRow, hflagT, if_true, Option.getD_some]
    simp [oscarPostInit, hne]

/-- Witness for C9 (amended): the flagged row 10–12 GHz with 200 MHz declared
bandwidth keeps its declared interval. -/
theorem C9_witness :
    questionableFlag 10 (some 12) (some 200) = true ∧
    ingestOscarRow 10 (some 12) (some 200) = (10, 12) :=
  ⟨by norm_num [questionableFlag, bandwidthValue, rangeBasedBandwidth],
   (C9_flag_semantics 10 (some 12) (some 200)).2 12 rfl
     (by norm_num [questionableFlag, bandwidthValue, rangeBasedBandwidth])⟩

/-- C10 counterexample: a single-value row (frequency field `1` GHz, no upper
bound) with a declared bandwidth of 200 MHz is stored as `[0.9, 1.1]` — the
degenerate interval is separated by the bandwidth adjustment before
construction, so the stored stop is not `start + sqrt(ulp(start))`. -/
theorem C10_counterexample :
    ingestOscarRow 1 none (some 200) = (9 / 10, 11 / 10) ∧
    (11 / 10 : ℚ) ≠ 1 + Rat.sqrt (ulp 1) := by
  constructor
  · norm_num [ingestOscarRow, questionableFlag, rangeBasedBandwidth,
      bandwidthValue, oscarPostInit]
  · rw [sqrt_ulp_one]
    norm_num

/-- C10 amended: a row whose frequency field provides only a single value has
its stop null-filled from the start; if the declared bandwidth is zero or
absent the interval reaches construction degenerate and is widened by
`sqrt(ulp(stop))`, while a nonzero declared bandwidth widens the interval by
half the bandwidth on each side before construction; in both cases the stored
interval is non-degenerate (`start < stop`). -/
theorem C10_single_value_rows (lower : ℚ) (bwMHz : Option ℚ)
    (hbw : 0 ≤ bandwidthValue bwMHz) :
    (bandwidthValue bwMHz = 0 →
      ingestOscarRow lower none bwMHz = (lower, lower + Rat.sqrt (ulp lower))) ∧
    (bandwidthValue bwMHz ≠ 0 →
      ingestOscarRow lower none bwMHz =
        (lower - bandwidthValue bwMHz / 2, lower + bandwidthValue bwMHz / 2)) ∧
    (ingestOscarRow lower none bwMHz).1 < (ingestOscarRow lower none bwMHz).2 := by
  have hq : questionableFlag lower none bwMHz = false := by
    simp [questionableFlag, rangeBasedBandwidth]
  have hrow : ingestOscarRow lower none bwMHz =
      oscarPostInit (lower - bandwidthValue bwMHz / 2)
        (lower + bandwidthValue bwMHz / 2) := by
    simp [ingestOscarRow, hq]
  by_cases hz : bandwidthValue bwMHz = 0
  · have heq : ingestOscarRow lower none bwMHz =
        (lower, lower + wideningDelta lower) := by
      rw [hrow, hz]
      norm_num [oscarPostInit]
    refine ⟨fun _ => by rw [heq]; rfl, fun hnz => absurd hz hnz, ?_⟩
    rw [heq]
    simpa using lt_add_of_pos_right lower (wideningDelta_pos lower)
  · have hpos : 0 < bandwidthValue bwMHz := lt_of_le_of_ne hbw (Ne.symm hz)
    have hne : lower + bandwidthValue bwMHz / 2 ≠
        lower - bandwidthValue bwMHz / 2 := by
      intro hcontra
      have : bandwidthValue bwMHz = 0 := by linarith
      exact hz this
    have heq : ingestOscarRow lower none bwMHz =
        (lower - bandwidthValue bwMHz / 2, lower + bandwidthValue bwMHz / 2) := by
      rw [hrow]
      simp [oscarPostInit, hne]
    refine ⟨fun h0 => absurd h0 hz, fun _ => heq, ?_⟩
    rw [heq]
    simp only []
    linarith

/-- Witness for C10 (amended) at the single-value row `1` GHz with 200 MHz
declared bandwidth. -/
theorem C10_witness :
    (0 : ℚ) ≤ bandwidthValue (some 200) ∧
    bandwidthValue (some 200) ≠ 0 ∧
    ingestOscarRow 1 none (some 200) =
      (1 - bandwidthValue (some 200) / 2, 1 + bandwidthValue (some 200) / 2) ∧
    (ingestOscarRow 1 none (some 200)).1 < (ingestOscarRow 1 none (some 200)).2 :=
  ⟨by norm_num [bandwidthValue], by norm_num [bandwidthValue],
   (C10_single_value_rows 1 (some 200) (by norm_num [bandwidthValue])).2.1
     (by norm_num [bandwidthValue]),
   (C10_single_value_rows 1 (some 200) (by norm_num [bandwidthValue])).2.2⟩

end PyIturr
